import Mathlib

/-!
Shallow embedding of `bin/db2authors.py`: the program loads an ordered roster
of author identifiers (`authors.yaml`) and an author database
(`etc/authordb.yaml`), and renders an author/affiliation listing for one of
four output modes (`aas`, `spie`, `adass`, `arxiv`).

The embedding models the data as in-memory documents (association lists), the
mutable module-level variables of the script as an explicit `LoopState`
threaded through the per-author loop, Python exceptions as a `RunError`
carried alongside the state (when an exception escapes, the process dies, so
only the output printed so far is observable), and the stream of `print`
calls made inside the loop as a list of tagged `PrintItem`s.
-/

namespace DbToAuthors

/-- An entry of the author database (`authordb.yaml`, key `authors`).
`orcid`/`email` are `Option` because the YAML value may be absent or null;
`none` models both an absent key and a null value where the script treats
them the same way (`auth.get(..., "")` / truthiness tests). -/
structure Author where
  name : String
  initials : String
  orcid : Option String := none
  email : Option String := none
  affil : List String := []
  altaffil : List String := []
deriving Repr, DecidableEq

/-- The two tables of `authordb.yaml`: `authors` (id -> record) and
`affiliations` (label -> address text). -/
structure AuthorDB where
  authors : List (String × Author)
  affiliations : List (String × String)
deriving Repr, DecidableEq

/-- The four accepted values of the `--mode` option (`OUTPUT_MODES`). -/
inductive Mode where
  | aas
  | spie
  | adass
  | arxiv
deriving Repr, DecidableEq

/-- `OUTPUT_MODES = ["aas", "spie", "adass", "arxiv"]`. -/
def OUTPUT_MODES : List String := ["aas", "spie", "adass", "arxiv"]

/-- `buffer_affil`: hold affiliation until after author output
(set by the `arxiv`, `spie` and `adass` branches). -/
def buffer_affil : Mode → Bool
  | .aas => false
  | .spie => true
  | .adass => true
  | .arxiv => true

/-- `buffer_authors`: output authors in one command
(set by the `arxiv` and `adass` branches). -/
def buffer_authors : Mode → Bool
  | .aas => false
  | .spie => false
  | .adass => true
  | .arxiv => true

/-- `author_super`: author affiliation as superscript (only `adass`). -/
def author_super : Mode → Bool
  | .adass => true
  | _ => false

/-- `affil_cmd`: command for the latex affiliation. -/
def affil_cmd : Mode → String
  | .aas => "affiliation"
  | .spie => "affil"
  | .adass => "affil"
  | .arxiv => ""

/-- `affil_out_sep`: separator of the buffered affiliation block.  The
script only assigns it in the `arxiv` and `adass` branches and only reads it
when `buffer_authors` holds, so the other two values are never used. -/
def affil_out_sep : Mode → String
  | .arxiv => ", "
  | .adass => "\n"
  | _ => ""

/-- `affil_form.format(affil_cmd, index, text)`: the format of one
affiliation entry.  Literal braces of the templates are written `\x7b`/`\x7d`. -/
def affil_form (m : Mode) (cmd idx text : String) : String :=
  match m with
  | .arxiv => cmd ++ "(" ++ idx ++ ") " ++ text
  | .adass => "\\" ++ cmd ++ "\x7b$^" ++ idx ++ "$" ++ text ++ "\x7d"
  | _ => "\\" ++ cmd ++ "[" ++ idx ++ "]\x7b" ++ text ++ "\x7d"

/-- `auth_afil_form.format(affilAuth, affilSep, affilInd)`: how one
affiliation index is appended to an author's reference string. -/
def auth_afil_form (m : Mode) (acc sep ind : String) : String :=
  match m with
  | .arxiv => acc ++ sep ++ "(" ++ ind ++ ")"
  | .adass => acc ++ sep ++ "$^" ++ ind ++ "$"
  | _ => acc ++ sep ++ ind

/-- `author_form.format(x, y, z)`: the author template.  In the default and
`spie` modes the arguments are `(orcid, initials, surname)`; in the buffered
modes they are `(initials, surname, affilAuth)`. -/
def author_form (m : Mode) (x y z : String) : String :=
  match m with
  | .arxiv => x ++ " " ++ y ++ z
  | .adass => x ++ "~" ++ y ++ z
  | _ => "\\author" ++ x ++ "\x7b~" ++ y ++ "~" ++ z ++ "\x7d"

/-- The whitespace class of Python's `\s` (ASCII part) and of `str.split()`. -/
def isSpaceChar (c : Char) : Bool :=
  c = ' ' || c = '\t' || c = '\n' || c = '\x0d' || c = '\x0b' || c = '\x0c'

/-- The word class of Python's `\w` (ASCII part). -/
def isWordChar (c : Char) : Bool :=
  c.isAlphanum || c = '_'

/-- `re.sub(r"\s+", "~", s)` on a character list: every maximal run of
whitespace becomes one `~`. -/
def collapseWS : List Char → List Char
  | [] => []
  | [c] => if isSpaceChar c then ['~'] else [c]
  | c1 :: c2 :: rest =>
    if isSpaceChar c1 then
      if isSpaceChar c2 then collapseWS (c2 :: rest)
      else '~' :: collapseWS (c2 :: rest)
    else c1 :: collapseWS (c2 :: rest)

/-- `re.sub(r"\.(\w)", lambda m: ".~" + m.group(1), s)` on a character list:
a `~` is inserted between a dot and a following word character (scanning
left to right, non-overlapping). -/
def dotSep : List Char → List Char
  | [] => []
  | [c] => [c]
  | c1 :: c2 :: rest =>
    if c1 = '.' && isWordChar c2 then '.' :: '~' :: c2 :: dotSep rest
    else c1 :: dotSep (c2 :: rest)

/-- Line 190: `surname = re.sub(r"\s+", "~", auth["name"])`. -/
def normSurname (s : String) : String := ⟨collapseWS s.data⟩

/-- Lines 193-196: dot separation then whitespace collapsing of the
initials. -/
def normInitials (s : String) : String := ⟨collapseWS (dotSep s.data)⟩

/-- `re.split` over a character class, keeping empty fields (Python
semantics). -/
def splitOnPred (p : Char → Bool) : List Char → List (List Char)
  | [] => [[]]
  | c :: cs =>
    match splitOnPred p cs with
    | [] => if p c then [[], []] else [[c]]
    | h :: t => if p c then [] :: h :: t else (c :: h) :: t

/-- The character class `[ -\.\~]` of `get_initials`: a range from space
(0x20) to dot (0x2e), plus tilde. -/
def isInitSplitChar (c : Char) : Bool :=
  (' ' ≤ c && c ≤ '.') || c = '~'

/-- `str.join` of Python. -/
def joinSep (sep : String) : List String → String
  | [] => ""
  | [s] => s
  | s :: rest => s ++ sep ++ joinSep sep rest

/-- `get_initials` (lines 136-144): split the (already normalized) initials
on the class above and keep the first character of every nonempty field. -/
def get_initials (initials : String) : String :=
  let names := splitOnPred isInitSplitChar initials.data
  let realInitials := names.filterMap (fun n => n.head?)
  "~" ++ joinSep ".~" (realInitials.map (fun c => String.mk [c])) ++ "."

/-- Python exceptions that can escape the author loop. -/
inductive RunError where
  | missingAuthor (id : String)
  | keyError (label : String)
  | nameError (var : String)
  | indexError (var : String)
deriving Repr, DecidableEq

/-- The message of the `RuntimeError` raised at lines 150-154 (the other
constructors render the interpreter's own description). -/
def errorMessage : RunError → String
  | .missingAuthor id => "Author ID " ++ id ++ " not defined in author database."
  | .keyError label => "KeyError: " ++ label
  | .nameError v => "NameError: name " ++ v ++ " is not defined"
  | .indexError v => "IndexError: " ++ v

/-- One `print` call made inside the per-author loop, tagged by its call
site (author line 232, affiliation lines 234/242, altaffiliation line 238,
the blank `print()` of line 243). -/
inductive PrintItem where
  | authorLine (s : String)
  | affilLine (s : String)
  | altaffilLine (s : String)
  | blank
deriving Repr, DecidableEq

/-- `list.index(x)` of Python: position of the first occurrence. -/
def listIndex (x : String) : List String → Nat
  | [] => 0
  | y :: t => if y = x then 0 else listIndex x t + 1

/-- The mutable module-level variables threaded through the author loop.
`theAffilVar`, `countryVar`, `stateVar`, `pcodeVar` model the Python locals
`theAffil`, `country`, `state`, `pcode` that leak across loop iterations
(`none` = not yet bound, so reading raises `NameError`).  `affilRefs` is a
trace of the `(label, affilInd)` pairs computed at line 169, recorded so
that theorems can speak about every reference index the run computes. -/
structure LoopState where
  affilset : List String
  authOutput : List String
  allAffil : List String
  pAuthorOutput : List String
  indexOutput : List String
  printed : List PrintItem
  theAffilVar : Option String
  countryVar : Option String
  stateVar : Option String
  pcodeVar : Option String
  affilRefs : List (String × Nat)
deriving Repr, DecidableEq

/-- The state at the start of the loop (lines 108, 128-133). -/
def initialState : LoopState :=
  { affilset := [], authOutput := [], allAffil := [], pAuthorOutput := [],
    indexOutput := [], printed := [], theAffilVar := none, countryVar := none,
    stateVar := none, pcodeVar := none, affilRefs := [] }

/-- The local accumulator of the per-author affiliation loop
(lines 156-175). -/
structure AffilAcc where
  affilset : List String
  affilOutput : List String
  affilAuth : String
  affilSep : String
  refs : List (String × Nat)
deriving Repr, DecidableEq

/-- Lines 162-175: walk the author's affiliation list; a new label is
appended to `affilset` and its formatted entry to `affilOutput`; every label
contributes its 1-based index to `affilAuth` (unless `--noafil`), and the
separator becomes a single space after the first entry. -/
def affilLoop (m : Mode) (noafil : Bool) (affs : List (String × String)) :
    List String → AffilAcc → Except RunError AffilAcc
  | [], acc => .ok acc
  | theAffil :: rest, acc =>
    if theAffil ∈ acc.affilset then
      let affilInd := listIndex theAffil acc.affilset + 1
      let affilAuth :=
        if noafil then acc.affilAuth
        else auth_afil_form m acc.affilAuth acc.affilSep (toString affilInd)
      affilLoop m noafil affs rest
        { acc with affilAuth := affilAuth, affilSep := " ",
                   refs := acc.refs ++ [(theAffil, affilInd)] }
    else
      match List.lookup theAffil affs with
      | none => .error (.keyError theAffil)
      | some txt =>
        let affilset := acc.affilset ++ [theAffil]
        let entry := affil_form m (affil_cmd m) (toString affilset.length) txt
        let affilInd := listIndex theAffil affilset + 1
        let affilAuth :=
          if noafil then acc.affilAuth
          else auth_afil_form m acc.affilAuth acc.affilSep (toString affilInd)
        affilLoop m noafil affs rest
          { affilset := affilset, affilOutput := acc.affilOutput ++ [entry],
            affilAuth := affilAuth, affilSep := " ",
            refs := acc.refs ++ [(theAffil, affilInd)] }

/-- `str.strip()` of Python: drop leading and trailing whitespace. -/
def trimChars (l : List Char) : List Char :=
  ((l.dropWhile isSpaceChar).reverse.dropWhile isSpaceChar).reverse

/-- Line 199: `addr = [a.strip() for a in affil[theAffil].split(',')]`. -/
def splitCommaStrip (s : String) : List String :=
  (splitOnPred (fun c => c = ',') s.data).map (fun l => String.mk (trimChars l))

/-- `addr[0]` (line 200); a comma split is never empty. -/
def tuteOf (addrtext : String) : String :=
  (splitCommaStrip addrtext).headD ""

/-- Python `str.split()` with no argument: split on whitespace runs,
dropping empty fields. -/
def pySplitWS (s : String) : List String :=
  ((splitOnPred isSpaceChar s.data).filter (fun t => t ≠ [])).map
    (fun l => String.mk l)

/-- The `\paperauthor` record of lines 216-219, with the template's literal
braces written `\x7b`/`\x7d`. -/
def mkPaperauthor (initials surname email orc tute city stateV pcode country : String) :
    String :=
  "\\paperauthor\x7b" ++ initials ++ "~" ++ surname ++ "\x7d\x7b" ++ email ++
    "\x7d\x7b" ++ orc ++ "\x7d\x7b" ++ tute ++ "\x7d\x7b\x7d\x7b" ++ city ++
    "\x7d\x7b" ++ stateV ++ "\x7d\x7b" ++ pcode ++ "\x7d\x7b" ++ country ++ "\x7d"

/-- The carried values of `country`, `state` and `pcode`. -/
structure AddrVars where
  country : Option String
  stateV : Option String
  pcode : Option String
deriving Repr, DecidableEq

/-- Lines 212-219 after the two `if` blocks: `city` defaults to `""`, then
the record is built; reading a still-unbound variable raises `NameError`
(the arguments are evaluated left to right: `state` before `pcode` before
`country`). -/
def paperIndexFinish (initials surname email orc tute : String)
    (addr : List String) (ind : Nat) (stateO pcodeO countryO : Option String) :
    Except RunError (String × AddrVars) :=
  let city := if 0 < ind then addr.getD ind "" else ""
  match stateO with
  | none => .error (.nameError "state")
  | some sv =>
    match pcodeO with
    | none => .error (.nameError "pcode")
    | some pv =>
      match countryO with
      | none => .error (.nameError "country")
      | some cv =>
        .ok (mkPaperauthor initials surname email orc tute city sv pv cv,
             { country := some cv, stateV := some sv, pcode := some pv })

/-- Lines 199-219: parse the address of `theAffil` into the
`\paperauthor` record.  `country` is assigned only when the address has at
least two comma components, `state`/`pcode` only when it has at least
three; otherwise the values left over from an earlier iteration are read. -/
def paperIndexRecord (vars : AddrVars) (initials surname email orc addrtext : String) :
    Except RunError (String × AddrVars) :=
  let addr := splitCommaStrip addrtext
  let tute := addr.headD ""
  let ind0 := addr.length - 1
  let countryO := if 0 < ind0 then some (addr.getD ind0 "") else vars.country
  let ind1 := if 0 < ind0 then ind0 - 1 else ind0
  if 0 < ind1 then
    match pySplitWS (addr.getD ind1 "") with
    | [] => .error (.indexError "sc")
    | s0 :: scRest =>
      let pcode := if scRest.length = 1 then scRest.headD "" else ""
      paperIndexFinish initials surname email orc tute addr (ind1 - 1)
        (some s0) (some pcode) countryO
  else
    paperIndexFinish initials surname email orc tute addr ind1
      vars.stateV vars.pcode countryO

/-- The values an author iteration computes before anything is printed
(lines 147-226 print nothing; they only append to the accumulator lists). -/
structure CoreResult where
  affilset : List String
  affilOutput : List String
  affilAuth : String
  refs : List (String × Nat)
  orcid : String
  initials : String
  surname : String
  theAffil : String
  paRecord : String
  indexRec : String
  vars : AddrVars
deriving Repr, DecidableEq

/-- Lines 147-226 for one author record: the affiliation loop, the orcid
bracket, name normalization, the `\paperauthor` record (parsed from the
address of `theAffil`, i.e. the value left in the loop variable: the LAST
entry of the author's affiliation list), the `arxiv` reset of
`affilOutput`, and the `%\aindex` line. -/
def processAuthorCore (m : Mode) (noafil : Bool) (db : AuthorDB)
    (numAuthors anum : Nat) (st : LoopState) (auth : Author) :
    Except RunError CoreResult :=
  let affilSep0 := if author_super m && decide (anum < numAuthors - 1) then "," else ""
  match affilLoop m noafil db.affiliations auth.affil
      { affilset := st.affilset, affilOutput := [], affilAuth := "",
        affilSep := affilSep0, refs := st.affilRefs } with
  | .error e => .error e
  | .ok acc =>
    let orcid :=
      if buffer_affil m then "[" ++ acc.affilAuth ++ "]"
      else
        match auth.orcid with
        | some o => if o = "" then "" else "[" ++ o ++ "]"
        | none => ""
    let orc := auth.orcid.getD ""
    let email := auth.email.getD ""
    let surname := normSurname auth.name
    let initials := normInitials auth.initials
    match (match auth.affil.getLast? with
           | some a => some a
           | none => st.theAffilVar) with
    | none => .error (.nameError "theAffil")
    | some theAffil =>
      match List.lookup theAffil db.affiliations with
      | none => .error (.keyError theAffil)
      | some addrtext =>
        match paperIndexRecord
            { country := st.countryVar, stateV := st.stateVar, pcode := st.pcodeVar }
            initials surname email orc addrtext with
        | .error e => .error e
        | .ok (pa, vars) =>
          let affilOutput :=
            if m = .arxiv then
              [affil_form m (affil_cmd m) (toString acc.affilset.length) (tuteOf addrtext)]
            else acc.affilOutput
          let justInitials := get_initials initials
          let indexRec := "%\\aindex\x7b" ++ surname ++ "," ++ justInitials ++ "\x7d"
          .ok { affilset := acc.affilset, affilOutput := affilOutput,
                affilAuth := acc.affilAuth, refs := acc.refs, orcid := orcid,
                initials := initials, surname := surname, theAffil := theAffil,
                paRecord := pa, indexRec := indexRec, vars := vars }

/-- Merge the computed values into the loop state (the appends of lines
216, 226 and the assignments that survive the iteration). -/
def applyCore (st : LoopState) (core : CoreResult) : LoopState :=
  { st with affilset := core.affilset,
            pAuthorOutput := st.pAuthorOutput ++ [core.paRecord],
            indexOutput := st.indexOutput ++ [core.indexRec],
            theAffilVar := some core.theAffil,
            countryVar := core.vars.country,
            stateVar := core.vars.stateV,
            pcodeVar := core.vars.pcode,
            affilRefs := core.refs }

/-- Lines 240-242: print one `\affil_cmd{...}` line per label of the
author's affiliation list, fetching each address by label (a missing label
raises `KeyError` after the earlier lines were already printed). -/
def printAffilLabels (affs : List (String × String)) (cmd : String) :
    List String → List String × Option RunError
  | [] => ([], none)
  | lab :: rest =>
    match List.lookup lab affs with
    | none => ([], some (.keyError lab))
    | some txt =>
      match printAffilLabels affs cmd rest with
      | (ls, e) => (("\\" ++ cmd ++ "\x7b" ++ txt ++ "\x7d") :: ls, e)

/-- One iteration of the author loop (lines 147-243).  On an exception the
process dies, so the state returned with a `some` error only carries the
output printed before the raise. -/
def processAuthor (m : Mode) (noafil : Bool) (db : AuthorDB)
    (numAuthors anum : Nat) (st : LoopState) (authorid : String) :
    LoopState × Option RunError :=
  match List.lookup authorid db.authors with
  | none => (st, some (.missingAuthor authorid))
  | some auth =>
    match processAuthorCore m noafil db numAuthors anum st auth with
    | .error e => (st, some e)
    | .ok core =>
      let st1 := applyCore st core
      if buffer_authors m then
        ({ st1 with
            authOutput := st1.authOutput ++
              [author_form m core.initials core.surname core.affilAuth],
            allAffil := st1.allAffil ++ core.affilOutput }, none)
      else
        let base := [PrintItem.authorLine (author_form m core.orcid core.initials core.surname)]
        if buffer_affil m then
          ({ st1 with printed := st1.printed ++ base ++
              core.affilOutput.map PrintItem.affilLine ++ [PrintItem.blank] }, none)
        else
          let alt := auth.altaffil.map
            (fun af => PrintItem.altaffilLine ("\\altaffiliation\x7b" ++ af ++ "\x7d"))
          match printAffilLabels db.affiliations (affil_cmd m) auth.affil with
          | (ls, some e) =>
            ({ st1 with printed := st1.printed ++ base ++ alt ++
                (ls.map PrintItem.affilLine) }, some e)
          | (ls, none) =>
            ({ st1 with printed := st1.printed ++ base ++ alt ++
                (ls.map PrintItem.affilLine) ++ [PrintItem.blank] }, none)

/-- The author loop from a given `anum` and state. -/
def runLoopFrom (m : Mode) (noafil : Bool) (db : AuthorDB) (numAuthors : Nat) :
    Nat → LoopState → List String → LoopState × Option RunError
  | _, st, [] => (st, none)
  | anum, st, authorid :: rest =>
    match processAuthor m noafil db numAuthors anum st authorid with
    | (st1, some e) => (st1, some e)
    | (st1, none) => runLoopFrom m noafil db numAuthors (anum + 1) st1 rest

/-- The whole author loop (line 147) over a roster. -/
def runLoop (m : Mode) (noafil : Bool) (db : AuthorDB) (roster : List String) :
    LoopState × Option RunError :=
  runLoopFrom m noafil db roster.length 0 initialState roster

/-- The separator printed after the author at 1-based position `anum`
(lines 254-260): `" and "` when `anum == numAuths and numAuths > 1`, or in
`arxiv` mode while `anum < numAuths`; otherwise `" "` while
`anum < numAuths`, else nothing.  `numAuths = len(authOutput) - 1`. -/
def authorJoinSep (m : Mode) (numAuths anum : Nat) : String :=
  if (anum = numAuths && decide (1 < numAuths)) || (m = .arxiv && decide (anum < numAuths)) then " and "
  else if anum < numAuths then " " else ""

/-- Lines 250-260: the buffered author snippets are printed in order, each
followed by its separator. -/
def joinAuthOutput (m : Mode) (authOutput : List String) : String :=
  String.join ((List.range authOutput.length).map
    (fun i => authOutput.getD i "" ++ authorJoinSep m (authOutput.length - 1) (i + 1)))

/-- The events of the program's top level, in source order: the option
check of `parse_args` (line 50), the two document reads (lines 84 and 93),
then the body. -/
inductive TraceEvent where
  | parsedArgs
  | usageError
  | readAuthorsFile
  | readDBFile
  | ranBody
deriving Repr, DecidableEq

/-- `argparse` with `choices=OUTPUT_MODES`: an unlisted value is rejected. -/
def argparseChoice (s : String) : Option String :=
  if s ∈ OUTPUT_MODES then some s else none

/-- The top level of the script as an event trace plus exit status:
`parse_args` runs before either `open` (lines 50, 84, 93); on a bad
`--mode` value `argparse` exits with status 2 having read nothing. -/
def mainTrace (rawMode : String) : List TraceEvent × Nat :=
  match argparseChoice rawMode with
  | none => ([.usageError], 2)
  | some _ => ([.parsedArgs, .readAuthorsFile, .readDBFile, .ranBody], 0)

/-- Recognizer for the author line print of line 232. -/
def isAuthorLine : PrintItem → Bool
  | .authorLine _ => true
  | _ => false

/-- Number of author blocks among the printed items. -/
def countAuthorLines (l : List PrintItem) : Nat :=
  l.countP isAuthorLine

/-- First pair check of `dwFree`: the head may not be a dot directly
followed by a word character. -/
def headOkDW (c : Char) : List Char → Bool
  | [] => true
  | d :: _ => !(c = '.' && isWordChar d)

/-- No dot is directly followed by a word character (the fixed points of
`dotSep`). -/
def dwFree : List Char → Bool
  | [] => true
  | c :: t => headOkDW c t && dwFree t

/-- First-occurrence deduplication in encounter order: the order in which
`affilset` collects labels. -/
def firstOccur (seen : List String) : List String → List String
  | [] => seen
  | l :: t => if l ∈ seen then firstOccur seen t else firstOccur (seen ++ [l]) t

/-- All affiliation labels a run encounters, in roster order and
declared-list order. -/
def encounters (db : AuthorDB) (roster : List String) : List String :=
  roster.flatMap (fun id =>
    match List.lookup id db.authors with
    | some a => a.affil
    | none => [])

/-- Address lookup with a default (total variant used to state the shape of
the emitted entries; the run itself fails on a missing label). -/
def lookupD (affs : List (String × String)) (lab : String) : String :=
  (List.lookup lab affs).getD ""

/-- The formatted entries for a label list whose first label holds index
`k + 1` (the index the script computes as `len(affilset)` at insertion). -/
def affilEntriesFrom (m : Mode) (affs : List (String × String)) :
    Nat → List String → List String
  | _, [] => []
  | k, lab :: t =>
    affil_form m (affil_cmd m) (toString (k + 1)) (lookupD affs lab) ::
      affilEntriesFrom m affs (k + 1) t

/-- The formatted entries for a full label list, indexed from 1. -/
def affilEntries (m : Mode) (affs : List (String × String)) (labs : List String) :
    List String :=
  affilEntriesFrom m affs 0 labs

/-- Every recorded reference pair points at a member of the affiliation
set and carries its 1-based first-occurrence index. -/
def ValidRefs (refs : List (String × Nat)) (set : List String) : Prop :=
  ∀ p ∈ refs, p.1 ∈ set ∧ p.2 = listIndex p.1 set + 1

/-- Sample author: one affiliation `X`. -/
def authA1 : Author :=
  { name := "Alpha", initials := "A.B.", affil := ["X"] }

/-- Sample author: affiliations `[X, Y]` in declared order. -/
def authA2 : Author :=
  { name := "Beta", initials := "C.D.", affil := ["X", "Y"] }

/-- Sample database for the shared-label scenario `[a1 : [X], a2 : [X, Y]]`. -/
def dbA : AuthorDB :=
  { authors := [("a1", authA1), ("a2", authA2)],
    affiliations :=
      [("X", "Inst X, City X, SX 11, Country X"),
       ("Y", "Inst Y, City Y, SY 22, Country Y")] }

/-- Sample database where two authors share the single affiliation `X`. -/
def dbB : AuthorDB :=
  { authors :=
      [("b1", { name := "Gamma", initials := "E.F.", affil := ["X"] }),
       ("b2", { name := "Delta", initials := "G.H.", affil := ["X"] })],
    affiliations := [("X", "Inst X, City X, SX 11, Country X")] }

/-- Sample database where `c1` has a four-component address but `c2` has a
two-component one (no state or postal code). -/
def dbC : AuthorDB :=
  { authors :=
      [("c1", { name := "Eps", initials := "I.J.", affil := ["Z3"] }),
       ("c2", { name := "Zeta", initials := "K.L.", affil := ["Z2"] })],
    affiliations :=
      [("Z3", "Inst A, City A, SA 9, Country A"),
       ("Z2", "Inst B, Country B")] }

/-! Lemmas about `listIndex` and `firstOccur`. -/

lemma listIndex_append_left {x : String} {l : List String} (t : List String)
    (h : x ∈ l) : listIndex x (l ++ t) = listIndex x l := by
  induction l with
  | nil => cases h
  | cons y l ih =>
    by_cases hy : y = x
    · simp [listIndex, hy]
    · rcases List.mem_cons.mp h with h1 | h1
      · exact absurd h1.symm hy
      · simp [listIndex, hy, ih h1]

lemma listIndex_append_self {x : String} {l : List String} (h : x ∉ l) :
    listIndex x (l ++ [x]) = l.length := by
  induction l with
  | nil => simp [listIndex]
  | cons y l ih =>
    have hy : ¬y = x := fun e => h (e ▸ List.mem_cons_self _ _)
    simp [listIndex, hy, ih (fun hx => h (List.mem_cons_of_mem _ hx))]

lemma listIndex_get {l : List String} (hnd : l.Nodup) :
    ∀ n lab, l.get? n = some lab → listIndex lab l = n := by
  induction l with
  | nil => intro n lab h; cases h
  | cons y t ih =>
    intro n lab h
    cases n with
    | zero =>
      simp only [List.get?] at h
      injection h with h
      simp [listIndex, h]
    | succ n =>
      simp only [List.get?] at h
      have hlab : lab ∈ t := List.get?_mem h
      have hy : ¬y = lab := by
        intro e; subst e
        exact (List.nodup_cons.mp hnd).1 hlab
      simp [listIndex, hy, ih (List.nodup_cons.mp hnd).2 n lab h]

lemma firstOccur_extend (l : List String) :
    ∀ seen, ∃ d, firstOccur seen l = seen ++ d := by
  induction l with
  | nil => intro seen; exact ⟨[], by simp [firstOccur]⟩
  | cons x t ih =>
    intro seen
    by_cases hx : x ∈ seen
    · obtain ⟨d, hd⟩ := ih seen
      exact ⟨d, by simp [firstOccur, hx, hd]⟩
    · obtain ⟨d, hd⟩ := ih (seen ++ [x])
      refine ⟨[x] ++ d, ?_⟩
      simp only [firstOccur, hx, if_neg]
      rw [hd, List.append_assoc]
      simp

lemma firstOccur_append (xs ys : List String) :
    ∀ seen, firstOccur (firstOccur seen xs) ys = firstOccur seen (xs ++ ys) := by
  induction xs with
  | nil => intro seen; simp [firstOccur]
  | cons x t ih =>
    intro seen
    by_cases hx : x ∈ seen <;> simp [firstOccur, hx, ih]

lemma firstOccur_nodup (l : List String) :
    ∀ seen, seen.Nodup → (firstOccur seen l).Nodup := by
  induction l with
  | nil => intro seen h; simpa [firstOccur] using h
  | cons x t ih =>
    intro seen h
    by_cases hx : x ∈ seen
    · simpa [firstOccur, hx] using ih seen h
    · have hnd : (seen ++ [x]).Nodup := by
        rw [List.nodup_append]
        refine ⟨h, List.nodup_singleton x, ?_⟩
        intro a ha hax
        rcases List.mem_singleton.mp hax with rfl
        exact hx ha
      simpa [firstOccur, hx] using ih (seen ++ [x]) hnd

/-! Lemmas about the name normalization (claim C7). -/

lemma dwFree_nil : dwFree [] = true := rfl

lemma dwFree_cons (c : Char) (t : List Char) :
    dwFree (c :: t) = (headOkDW c t && dwFree t) := rfl

lemma headOkDW_nil (c : Char) : headOkDW c [] = true := rfl

lemma headOkDW_cons (c d : Char) (t : List Char) :
    headOkDW c (d :: t) = !(decide (c = '.') && isWordChar d) := rfl

lemma bnot_true {b : Bool} (h : (!b) = true) : b = false := by
  cases b <;> simp_all

lemma headOkDW_ne_dot {c : Char} (hc : decide (c = '.') = false) (l : List Char) :
    headOkDW c l = true := by
  cases l <;> simp [headOkDW_nil, headOkDW_cons, hc]

lemma word_not_dot {c : Char} (h : isWordChar c = true) : decide (c = '.') = false := by
  by_contra hne
  have : c = '.' := of_decide_eq_true (by revert hne; cases (decide (c = '.')) <;> simp)
  subst this
  exact absurd h (by decide)

lemma collapseWS_no_ws (l : List Char) : ∀ c ∈ collapseWS l, isSpaceChar c = false := by
  induction l using collapseWS.induct with
  | case1 => intro c hc; cases hc
  | case2 c h =>
    intro d hd
    simp only [collapseWS, if_pos h, List.mem_singleton] at hd
    subst hd; decide
  | case3 c h =>
    intro d hd
    simp only [collapseWS, if_neg h, List.mem_singleton] at hd
    subst hd
    simpa using h
  | case4 c1 c2 rest h1 h2 ih =>
    intro d hd
    simp only [collapseWS, if_pos h1, if_pos h2] at hd
    exact ih d hd
  | case5 c1 c2 rest h1 h2 ih =>
    intro d hd
    simp only [collapseWS, if_pos h1, if_neg h2, List.mem_cons] at hd
    rcases hd with h | h
    · subst h; decide
    · exact ih d h
  | case6 c1 c2 rest h ih =>
    intro d hd
    simp only [collapseWS, if_neg h, List.mem_cons] at hd
    rcases hd with hh | hh
    · subst hh; simpa using h
    · exact ih d hh

lemma collapseWS_fixed (l : List Char) (h : ∀ c ∈ l, isSpaceChar c = false) :
    collapseWS l = l := by
  induction l using collapseWS.induct with
  | case1 => rfl
  | case2 c hc => exact absurd (h c (by simp)) (by simp [hc])
  | case3 c hc => simp [collapseWS, if_neg hc]
  | case4 c1 c2 rest h1 h2 ih => exact absurd (h c1 (by simp)) (by simp [h1])
  | case5 c1 c2 rest h1 h2 ih => exact absurd (h c1 (by simp)) (by simp [h1])
  | case6 c1 c2 rest hc ih =>
    simp only [collapseWS, if_neg hc]
    rw [ih (fun c hcc => h c (List.mem_cons_of_mem _ hcc))]

lemma dotSep_cons_head (c : Char) (rest : List Char) :
    ∃ t, dotSep (c :: rest) = c :: t := by
  cases rest with
  | nil => exact ⟨[], rfl⟩
  | cons d r =>
    by_cases h : (decide (c = '.') && isWordChar d) = true
    · have hc : c = '.' := of_decide_eq_true ((Bool.and_eq_true _ _).mp h).1
      have hw : isWordChar d = true := ((Bool.and_eq_true _ _).mp h).2
      subst hc
      exact ⟨'~' :: d :: dotSep r, by simp [dotSep, hw]⟩
    · exact ⟨dotSep (d :: r), by simp [dotSep, h]⟩

lemma dotSep_dwFree (l : List Char) : dwFree (dotSep l) = true := by
  induction l using dotSep.induct with
  | case1 => rfl
  | case2 c => simp [dotSep, dwFree_cons, dwFree_nil, headOkDW_nil]
  | case3 c1 c2 rest h ih =>
    have hw : isWordChar c2 = true := ((Bool.and_eq_true _ _).mp h).2
    simp only [dotSep, if_pos h]
    rw [dwFree_cons, dwFree_cons, dwFree_cons]
    rw [headOkDW_cons, headOkDW_cons]
    rw [headOkDW_ne_dot (word_not_dot hw)]
    simp only [ih, Bool.and_true]
    have e1 : isWordChar '~' = false := by decide
    have e2 : decide ('~' = '.') = false := by decide
    simp [e1, e2]
  | case4 c1 c2 rest h ih =>
    have hf : (decide (c1 = '.') && isWordChar c2) = false := Bool.eq_false_iff.mpr h
    simp only [dotSep, if_neg h]
    obtain ⟨t, ht⟩ := dotSep_cons_head c2 rest
    rw [ht, dwFree_cons, headOkDW_cons, hf, ← ht, ih]
    rfl

lemma dotSep_fixed (l : List Char) (h : dwFree l = true) : dotSep l = l := by
  induction l with
  | nil => rfl
  | cons c t ih =>
    cases t with
    | nil => rfl
    | cons d r =>
      rw [dwFree_cons, Bool.and_eq_true, headOkDW_cons] at h
      obtain ⟨h1, h2⟩ := h
      have hf : (decide (c = '.') && isWordChar d) = false := bnot_true h1
      simp only [dotSep, hf, Bool.false_eq_true, if_false]
      rw [ih h2]

lemma collapseWS_head_ws (rest : List Char) :
    ∀ c, isSpaceChar c = true → ∃ t, collapseWS (c :: rest) = '~' :: t := by
  induction rest with
  | nil => intro c h; exact ⟨[], by simp [collapseWS, if_pos h]⟩
  | cons d r ih =>
    intro c h
    by_cases hd : isSpaceChar d = true
    · obtain ⟨t, ht⟩ := ih d hd
      exact ⟨t, by simp only [collapseWS, if_pos h, if_pos hd]; exact ht⟩
    · exact ⟨collapseWS (d :: r), by simp only [collapseWS, if_pos h, if_neg hd]⟩

lemma collapseWS_head_not_ws (c : Char) (rest : List Char) (h : isSpaceChar c = false) :
    ∃ t, collapseWS (c :: rest) = c :: t := by
  cases rest with
  | nil => exact ⟨[], by simp [collapseWS, h]⟩
  | cons d r => exact ⟨collapseWS (d :: r), by simp [collapseWS, h]⟩

lemma collapseWS_dwFree (l : List Char) (h : dwFree l = true) :
    dwFree (collapseWS l) = true := by
  induction l using collapseWS.induct with
  | case1 => rfl
  | case2 c hc => simp [collapseWS, if_pos hc, dwFree_cons, dwFree_nil, headOkDW_nil]
  | case3 c hc => simp [collapseWS, if_neg hc, dwFree_cons, dwFree_nil, headOkDW_nil]
  | case4 c1 c2 rest h1 h2 ih =>
    rw [dwFree_cons, Bool.and_eq_true] at h
    simp only [collapseWS, if_pos h1, if_pos h2]
    exact ih h.2
  | case5 c1 c2 rest h1 h2 ih =>
    rw [dwFree_cons, Bool.and_eq_true] at h
    simp only [collapseWS, if_pos h1, if_neg h2]
    obtain ⟨t, ht⟩ := collapseWS_head_not_ws c2 rest (Bool.eq_false_iff.mpr h2)
    rw [ht, dwFree_cons, headOkDW_cons, ← ht, ih h.2]
    have e2 : decide ('~' = '.') = false := by decide
    simp [e2]
  | case6 c1 c2 rest hc ih =>
    rw [dwFree_cons, Bool.and_eq_true, headOkDW_cons] at h
    simp only [collapseWS, if_neg hc]
    by_cases hc2 : isSpaceChar c2 = true
    · obtain ⟨t, ht⟩ := collapseWS_head_ws rest c2 hc2
      rw [ht, dwFree_cons, headOkDW_cons, ← ht, ih h.2]
      have e1 : isWordChar '~' = false := by decide
      simp [e1]
    · obtain ⟨t, ht⟩ := collapseWS_head_not_ws c2 rest (Bool.eq_false_iff.mpr hc2)
      rw [ht, dwFree_cons, headOkDW_cons, ← ht, ih h.2]
      simpa using h.1

/-! Lemmas about the affiliation loop. -/

lemma affilLoop_spec (m : Mode) (noafil : Bool) (affs : List (String × String)) :
    ∀ (labs : List String) (acc res : AffilAcc),
      affilLoop m noafil affs labs acc = .ok res →
      ∃ d, res.affilset = acc.affilset ++ d ∧
        res.affilset = firstOccur acc.affilset labs ∧
        res.affilOutput = acc.affilOutput ++ affilEntriesFrom m affs acc.affilset.length d ∧
        (ValidRefs acc.refs acc.affilset → ValidRefs res.refs res.affilset) := by
  intro labs
  induction labs with
  | nil =>
    intro acc res h
    simp only [affilLoop] at h
    injection h with h
    subst h
    exact ⟨[], by simp, by simp [firstOccur], by simp [affilEntriesFrom], fun v => v⟩
  | cons lab rest ih =>
    intro acc res h
    simp only [affilLoop] at h
    split at h
    · rename_i hmem
      obtain ⟨d, h1, h2, h3, h4⟩ := ih _ res h
      refine ⟨d, h1, ?_, h3, ?_⟩
      · rw [h2]; simp [firstOccur, hmem]
      · intro hv
        apply h4
        intro p hp
        rcases List.mem_append.mp hp with hp | hp
        · exact hv p hp
        · rcases List.mem_singleton.mp hp with rfl
          exact ⟨hmem, rfl⟩
    · rename_i hmem
      split at h
      · cases h
      · rename_i txt hlook
        obtain ⟨d, h1, h2, h3, h4⟩ := ih _ res h
        refine ⟨[lab] ++ d, ?_, ?_, ?_, ?_⟩
        · rw [h1]; simp
        · rw [h2]; simp [firstOccur, hmem]
        · rw [h3]
          have hlen : (acc.affilset ++ [lab]).length = acc.affilset.length + 1 := by simp
          rw [hlen, List.append_assoc]
          congr 1
          have hD : lookupD affs lab = txt := by simp [lookupD, hlook]
          simp [affilEntriesFrom, hD]
        · intro hv
          apply h4
          intro p hp
          rcases List.mem_append.mp hp with hp | hp
          · obtain ⟨hm2, hi2⟩ := hv p hp
            refine ⟨List.mem_append_left _ hm2, ?_⟩
            rw [listIndex_append_left _ hm2]
            exact hi2
          · rcases List.mem_singleton.mp hp with rfl
            exact ⟨List.mem_append_right _ (List.mem_singleton_self _), rfl⟩

lemma affilLoop_sep (m : Mode) (noafil : Bool) (affs : List (String × String)) :
    ∀ (labs : List String) (acc res : AffilAcc),
      affilLoop m noafil affs labs acc = .ok res →
      (acc.affilSep = " " ∨ labs ≠ []) → res.affilSep = " " := by
  intro labs
  induction labs with
  | nil =>
    intro acc res h hcase
    simp only [affilLoop] at h
    injection h with h
    subst h
    rcases hcase with h1 | h1
    · exact h1
    · exact absurd rfl h1
  | cons lab rest ih =>
    intro acc res h _
    simp only [affilLoop] at h
    split at h
    · exact ih _ res h (Or.inl rfl)
    · split at h
      · cases h
      · exact ih _ res h (Or.inl rfl)

lemma affilLoop_total (m : Mode) (noafil : Bool) (affs : List (String × String)) :
    ∀ (labs : List String) (acc : AffilAcc),
      (∀ l ∈ labs, (List.lookup l affs).isSome = true) →
      ∃ res, affilLoop m noafil affs labs acc = .ok res := by
  intro labs
  induction labs with
  | nil => intro acc _; exact ⟨acc, rfl⟩
  | cons lab rest ih =>
    intro acc hl
    simp only [affilLoop]
    split
    · exact ih _ (fun l hl2 => hl l (List.mem_cons_of_mem _ hl2))
    · have hs := hl lab (List.mem_cons_self _ _)
      rcases hs2 : List.lookup lab affs with _ | txt
      · rw [hs2] at hs
        exact absurd hs (by simp)
      · exact ih _ (fun l hl2 => hl l (List.mem_cons_of_mem _ hl2))

lemma printAffilLabels_total (affs : List (String × String)) (cmd : String) :
    ∀ labs, (∀ l ∈ labs, (List.lookup l affs).isSome = true) →
      ∃ ls, printAffilLabels affs cmd labs = (ls, none) := by
  intro labs
  induction labs with
  | nil => exact fun _ => ⟨[], rfl⟩
  | cons lab rest ih =>
    intro hl
    have hs := hl lab (List.mem_cons_self _ _)
    rcases hs2 : List.lookup lab affs with _ | txt
    · rw [hs2] at hs
      exact absurd hs (by simp)
    · obtain ⟨ls, hls⟩ := ih (fun l hl2 => hl l (List.mem_cons_of_mem _ hl2))
      exact ⟨("\\" ++ cmd ++ "\x7b" ++ txt ++ "\x7d") :: ls,
        by simp only [printAffilLabels, hs2, hls]⟩

lemma splitOnPred_ne_nil (p : Char → Bool) (l : List Char) : splitOnPred p l ≠ [] := by
  cases l with
  | nil => simp [splitOnPred]
  | cons c cs =>
    simp only [splitOnPred]
    split <;> split <;> simp

lemma splitCommaStrip_ne_nil (s : String) : splitCommaStrip s ≠ [] := by
  simp only [splitCommaStrip, ne_eq, List.map_eq_nil_iff]
  exact splitOnPred_ne_nil _ _

lemma affilEntriesFrom_append (m : Mode) (affs : List (String × String)) :
    ∀ (xs ys : List String) (k : Nat),
      affilEntriesFrom m affs k (xs ++ ys) =
        affilEntriesFrom m affs k xs ++ affilEntriesFrom m affs (k + xs.length) ys := by
  intro xs
  induction xs with
  | nil => intro ys k; simp [affilEntriesFrom]
  | cons x t ih =>
    intro ys k
    simp only [List.cons_append, affilEntriesFrom, List.length_cons, List.append_eq]
    rw [ih ys (k + 1)]
    have he : k + 1 + t.length = k + (t.length + 1) := by omega
    rw [he]

/-! Lemmas about one author iteration. -/

lemma countAuthorLines_append (a b : List PrintItem) :
    countAuthorLines (a ++ b) = countAuthorLines a + countAuthorLines b := by
  simp [countAuthorLines, List.countP_append]

lemma countAuthorLines_affil (ls : List String) :
    countAuthorLines (ls.map PrintItem.affilLine) = 0 := by
  induction ls with
  | nil => rfl
  | cons x t ih => simp [countAuthorLines, List.countP_cons, isAuthorLine, ih]

lemma countAuthorLines_alt (ls : List PrintItem)
    (h : ∀ i ∈ ls, isAuthorLine i = false) : countAuthorLines ls = 0 := by
  induction ls with
  | nil => rfl
  | cons x t ih =>
    have hx := h x (List.mem_cons_self _ _)
    have ht := ih (fun i hi => h i (List.mem_cons_of_mem _ hi))
    simp only [countAuthorLines, List.countP_cons, hx] at ht ⊢
    simpa using ht

lemma processAuthorCore_ok (m : Mode) (noafil : Bool) (db : AuthorDB)
    (n anum : Nat) (st : LoopState) (auth : Author) (core : CoreResult)
    (h : processAuthorCore m noafil db n anum st auth = .ok core) :
    ∃ acc lab addrtext pa vars,
      affilLoop m noafil db.affiliations auth.affil
        { affilset := st.affilset, affilOutput := [], affilAuth := "",
          affilSep := if author_super m && decide (anum < n - 1) then "," else "",
          refs := st.affilRefs } = .ok acc ∧
      (match auth.affil.getLast? with
       | some a => some a
       | none => st.theAffilVar) = some lab ∧
      List.lookup lab db.affiliations = some addrtext ∧
      paperIndexRecord
        { country := st.countryVar, stateV := st.stateVar, pcode := st.pcodeVar }
        (normInitials auth.initials) (normSurname auth.name)
        (auth.email.getD "") (auth.orcid.getD "") addrtext = .ok (pa, vars) ∧
      core.affilset = acc.affilset ∧
      core.refs = acc.refs ∧
      core.affilAuth = acc.affilAuth ∧
      core.initials = normInitials auth.initials ∧
      core.surname = normSurname auth.name ∧
      core.theAffil = lab ∧
      core.paRecord = pa ∧
      core.vars = vars ∧
      core.affilOutput =
        (if m = .arxiv then
          [affil_form m (affil_cmd m) (toString acc.affilset.length) (tuteOf addrtext)]
        else acc.affilOutput) := by
  simp only [processAuthorCore] at h
  split at h
  · cases h
  · rename_i acc hacc
    split at h
    · cases h
    · rename_i lab hlab
      split at h
      · cases h
      · rename_i addrtext haddr
        split at h
        · cases h
        · rename_i pa vars hpr
          injection h with h
          subst h
          exact ⟨acc, lab, addrtext, pa, vars, hacc, hlab, haddr, hpr,
            rfl, rfl, rfl, rfl, rfl, rfl, rfl, rfl, rfl⟩

lemma processAuthor_ok (m : Mode) (noafil : Bool) (db : AuthorDB)
    (n anum : Nat) (st : LoopState) (authorid : String) (st2 : LoopState)
    (h : processAuthor m noafil db n anum st authorid = (st2, none)) :
    ∃ auth core,
      List.lookup authorid db.authors = some auth ∧
      processAuthorCore m noafil db n anum st auth = .ok core ∧
      st2.affilset = core.affilset ∧
      st2.affilRefs = core.refs ∧
      st2.pAuthorOutput = st.pAuthorOutput ++ [core.paRecord] ∧
      st2.stateVar = core.vars.stateV ∧
      st2.pcodeVar = core.vars.pcode ∧
      st2.countryVar = core.vars.country ∧
      (buffer_authors m = true →
        st2.authOutput = st.authOutput ++
          [author_form m core.initials core.surname core.affilAuth] ∧
        st2.allAffil = st.allAffil ++ core.affilOutput ∧
        st2.printed = st.printed) ∧
      (buffer_authors m = false →
        st2.authOutput = st.authOutput ∧
        st2.allAffil = st.allAffil ∧
        countAuthorLines st2.printed = countAuthorLines st.printed + 1) := by
  simp only [processAuthor] at h
  split at h
  · simp at h
  · rename_i auth hlook
    split at h
    · simp at h
    · rename_i core hcore
      refine ⟨auth, core, hlook, hcore, ?_⟩
      split at h
      · rename_i hbuf
        rw [Prod.mk.injEq] at h
        obtain ⟨h1, _⟩ := h
        subst h1
        refine ⟨rfl, rfl, rfl, rfl, rfl, rfl, fun _ => ⟨rfl, rfl, rfl⟩, ?_⟩
        intro hfalse
        rw [hbuf] at hfalse
        cases hfalse
      · rename_i hbuf
        have hbuf2 : buffer_authors m = false := Bool.eq_false_iff.mpr hbuf
        split at h
        · rename_i haffil
          rw [Prod.mk.injEq] at h
          obtain ⟨h1, _⟩ := h
          subst h1
          refine ⟨rfl, rfl, rfl, rfl, rfl, rfl, ?_, ?_⟩
          · intro htrue; rw [hbuf2] at htrue; cases htrue
          · intro _
            refine ⟨rfl, rfl, ?_⟩
            simp only [applyCore]
            rw [countAuthorLines_append, countAuthorLines_append,
              countAuthorLines_append, countAuthorLines_affil]
            simp [countAuthorLines, List.countP_cons, isAuthorLine]
        · rename_i haffil
          split at h
          · simp at h
          · rename_i ls hpr
            rw [Prod.mk.injEq] at h
            obtain ⟨h1, _⟩ := h
            subst h1
            refine ⟨rfl, rfl, rfl, rfl, rfl, rfl, ?_, ?_⟩
            · intro htrue; rw [hbuf2] at htrue; cases htrue
            · intro _
              refine ⟨rfl, rfl, ?_⟩
              simp only [applyCore]
              rw [countAuthorLines_append, countAuthorLines_append,
                countAuthorLines_append, countAuthorLines_append,
                countAuthorLines_affil]
              rw [countAuthorLines_alt (auth.altaffil.map
                (fun af => PrintItem.altaffilLine ("\\altaffiliation\x7b" ++ af ++ "\x7d")))]
              · simp [countAuthorLines, List.countP_cons, isAuthorLine]
              · intro i hi
                obtain ⟨af, _, rfl⟩ := List.mem_map.mp hi
                rfl

lemma processAuthor_step (m : Mode) (noafil : Bool) (db : AuthorDB)
    (n anum : Nat) (st : LoopState) (authorid : String) (st2 : LoopState)
    (h : processAuthor m noafil db n anum st authorid = (st2, none)) :
    ∃ auth d,
      List.lookup authorid db.authors = some auth ∧
      st2.affilset = st.affilset ++ d ∧
      st2.affilset = firstOccur st.affilset auth.affil ∧
      (ValidRefs st.affilRefs st.affilset → ValidRefs st2.affilRefs st2.affilset) ∧
      st2.pAuthorOutput.length = st.pAuthorOutput.length + 1 ∧
      (buffer_authors m = true → st2.authOutput.length = st.authOutput.length + 1 ∧
        st2.printed = st.printed) ∧
      (buffer_authors m = false →
        countAuthorLines st2.printed = countAuthorLines st.printed + 1) ∧
      (buffer_authors m = true → m ≠ .arxiv →
        st2.allAffil = st.allAffil ++
          affilEntriesFrom m db.affiliations st.affilset.length d) ∧
      (m = .arxiv → st2.allAffil.length = st.allAffil.length + 1) := by
  obtain ⟨auth, core, hlook, hcore, hset, hrefs, hpa, _, _, _, hbuf, hnobuf⟩ :=
    processAuthor_ok m noafil db n anum st authorid st2 h
  obtain ⟨acc, lab, addrtext, pa, vars, hacc, _, _, _, cset, crefs, _, _, _, _, _, _, cout⟩ :=
    processAuthorCore_ok m noafil db n anum st auth core hcore
  obtain ⟨d, a1, a2, a3, a4⟩ := affilLoop_spec m noafil db.affiliations auth.affil _ acc hacc
  refine ⟨auth, d, hlook, ?_, ?_, ?_, ?_, ?_, ?_, ?_, ?_⟩
  · rw [hset, cset]; exact a1
  · rw [hset, cset]; exact a2
  · intro hv
    rw [hset, cset, hrefs, crefs]
    exact a4 hv
  · rw [hpa]; simp
  · intro hb
    obtain ⟨e1, _, e3⟩ := hbuf hb
    exact ⟨by rw [e1]; simp, e3⟩
  · intro hb
    exact (hnobuf hb).2.2
  · intro hb hnarx
    obtain ⟨_, e2, _⟩ := hbuf hb
    rw [e2, cout, if_neg hnarx, a3]
    simp
  · intro harx
    have hb : buffer_authors m = true := by rw [harx]; rfl
    obtain ⟨_, e2, _⟩ := hbuf hb
    rw [e2, cout, if_pos harx]
    simp

lemma encounters_cons (db : AuthorDB) (id : String) (rest : List String)
    (auth : Author) (h : List.lookup id db.authors = some auth) :
    encounters db (id :: rest) = auth.affil ++ encounters db rest := by
  simp [encounters, h]

lemma runLoopFrom_ok (m : Mode) (noafil : Bool) (db : AuthorDB) (n : Nat) :
    ∀ (roster : List String) (anum : Nat) (st fin : LoopState),
      runLoopFrom m noafil db n anum st roster = (fin, none) →
      (∃ d, fin.affilset = st.affilset ++ d) ∧
      fin.affilset = firstOccur st.affilset (encounters db roster) ∧
      (ValidRefs st.affilRefs st.affilset → ValidRefs fin.affilRefs fin.affilset) ∧
      fin.pAuthorOutput.length = st.pAuthorOutput.length + roster.length ∧
      (buffer_authors m = true →
        fin.authOutput.length = st.authOutput.length + roster.length ∧
        fin.printed = st.printed) ∧
      (buffer_authors m = false →
        countAuthorLines fin.printed = countAuthorLines st.printed + roster.length) ∧
      (m = .adass → st.allAffil = affilEntries m db.affiliations st.affilset →
        fin.allAffil = affilEntries m db.affiliations fin.affilset) ∧
      (m = .arxiv → fin.allAffil.length = st.allAffil.length + roster.length) := by
  intro roster
  induction roster with
  | nil =>
    intro anum st fin h
    simp only [runLoopFrom] at h
    rw [Prod.mk.injEq] at h
    obtain ⟨h1, _⟩ := h
    subst h1
    exact ⟨⟨[], by simp⟩, by simp [encounters, firstOccur], fun v => v, by simp,
      fun _ => ⟨by simp, rfl⟩, fun _ => by simp, fun _ hi => hi, fun _ => by simp⟩
  | cons id rest ih =>
    intro anum st fin h
    simp only [runLoopFrom] at h
    split at h
    · simp at h
    · rename_i st1 hstep
      obtain ⟨auth, d, hlook, s1, s2, s3, s4, s5, s6, s7, s8⟩ :=
        processAuthor_step m noafil db n anum st id st1 hstep
      obtain ⟨⟨d2, i1⟩, i2, i3, i4, i5, i6, i7, i8⟩ := ih (anum + 1) st1 fin h
      refine ⟨⟨d ++ d2, ?_⟩, ?_, fun hv => i3 (s3 hv), ?_, ?_, ?_, ?_, ?_⟩
      · rw [i1, s1, List.append_assoc]
      · rw [i2, s2, encounters_cons db id rest auth hlook, firstOccur_append]
      · rw [i4, s4, List.length_cons]
        omega
      · intro hb
        obtain ⟨e1, e2⟩ := i5 hb
        obtain ⟨f1, f2⟩ := s5 hb
        refine ⟨?_, by rw [e2, f2]⟩
        rw [e1, f1, List.length_cons]
        omega
      · intro hb
        rw [i6 hb, s6 hb, List.length_cons]
        omega
      · intro hm hinv
        refine i7 hm ?_
        have hb : buffer_authors m = true := by rw [hm]; rfl
        have hnarx : m ≠ .arxiv := by rw [hm]; intro e; cases e
        rw [s7 hb hnarx, hinv, s1]
        unfold affilEntries
        rw [affilEntriesFrom_append]
        simp
      · intro hm
        rw [i8 hm, s8 hm, List.length_cons]
        omega

lemma runLoopFrom_append (m : Mode) (noafil : Bool) (db : AuthorDB) (n : Nat) :
    ∀ (xs ys : List String) (anum : Nat) (st : LoopState),
      runLoopFrom m noafil db n anum st (xs ++ ys) =
        (match runLoopFrom m noafil db n anum st xs with
         | (st1, some e) => (st1, some e)
         | (st1, none) => runLoopFrom m noafil db n (anum + xs.length) st1 ys) := by
  intro xs
  induction xs with
  | nil =>
    intro ys anum st
    simp [runLoopFrom]
  | cons x t ih =>
    intro ys anum st
    simp only [List.cons_append, runLoopFrom]
    rcases hp : processAuthor m noafil db n anum st x with ⟨st1, e⟩
    cases e with
    | some err => simp
    | none =>
      simp only [List.length_cons, List.append_eq]
      rw [ih ys (anum + 1) st1]
      have he : anum + 1 + t.length = anum + (t.length + 1) := by omega
      rw [he]

/-- Claim C1: scanning the roster in order and each author's affiliation
list in declared order, `affilset` collects the distinct labels in first
encounter order, the label at 0-based position `k` has `listIndex` `k` (so
the Nth distinct label is assigned the 1-based index N), and every
reference index the loop computes (line 169) is the 1-based first
occurrence position of its label, so repeated references reuse the same
index. -/
theorem claim_C1 (m : Mode) (noafil : Bool) (db : AuthorDB) (roster : List String)
    (h : (runLoop m noafil db roster).2 = none) :
    (runLoop m noafil db roster).1.affilset = firstOccur [] (encounters db roster) ∧
    (∀ k lab, (runLoop m noafil db roster).1.affilset.get? k = some lab →
      listIndex lab (runLoop m noafil db roster).1.affilset = k) ∧
    ValidRefs (runLoop m noafil db roster).1.affilRefs
      (runLoop m noafil db roster).1.affilset := by
  rcases hr : runLoop m noafil db roster with ⟨fin, e⟩
  rw [hr] at h
  simp only at h
  subst h
  unfold runLoop at hr
  obtain ⟨_, i2, i3, _, _, _, _, _⟩ :=
    runLoopFrom_ok m noafil db roster.length roster 0 initialState fin hr
  have hset : fin.affilset = firstOccur [] (encounters db roster) := by
    simpa [initialState] using i2
  refine ⟨hset, ?_, ?_⟩
  · intro k lab hk
    have hnd : fin.affilset.Nodup := by
      rw [hset]; exact firstOccur_nodup _ [] List.nodup_nil
    exact listIndex_get hnd k lab hk
  · exact i3 (fun p hp => absurd hp (List.not_mem_nil p))

theorem claim_C1_witness :
    (runLoop .adass false dbA ["a1", "a2"]).1.affilset =
      firstOccur [] (encounters dbA ["a1", "a2"]) ∧
    ValidRefs (runLoop .adass false dbA ["a1", "a2"]).1.affilRefs
      (runLoop .adass false dbA ["a1", "a2"]).1.affilset := by
  have hc := claim_C1 .adass false dbA ["a1", "a2"] (by decide)
  exact ⟨hc.1, hc.2.2⟩

/-- Claim C8 (amended): for every roster whose run completes without an
exception — a strictly smaller set than the rosters whose identifiers all
resolve, since an author whose last-affiliation address has fewer than
three components can still kill a run (see claim C10) — the number of
emitted author blocks equals the roster length: buffered modes collect
exactly one snippet per roster entry in `authOutput`, and non-buffered
modes print exactly one author line per roster entry. -/
theorem claim_C8 (m : Mode) (noafil : Bool) (db : AuthorDB) (roster : List String)
    (h : (runLoop m noafil db roster).2 = none) :
    (buffer_authors m = true →
      (runLoop m noafil db roster).1.authOutput.length = roster.length) ∧
    (buffer_authors m = false →
      countAuthorLines (runLoop m noafil db roster).1.printed = roster.length) := by
  rcases hr : runLoop m noafil db roster with ⟨fin, e⟩
  rw [hr] at h
  simp only at h
  subst h
  unfold runLoop at hr
  obtain ⟨_, _, _, _, i5, i6, _, _⟩ :=
    runLoopFrom_ok m noafil db roster.length roster 0 initialState fin hr
  constructor
  · intro hb
    have := (i5 hb).1
    simpa [initialState] using this
  · intro hb
    have := i6 hb
    simpa [initialState, countAuthorLines] using this

theorem claim_C8_witness :
    countAuthorLines (runLoop .aas false dbA ["a1", "a2"]).1.printed = 2 ∧
    (runLoop .adass false dbA ["a1", "a2"]).1.authOutput.length = 2 :=
  ⟨(claim_C8 .aas false dbA ["a1", "a2"] (by decide)).2 rfl,
   (claim_C8 .adass false dbA ["a1", "a2"] (by decide)).1 rfl⟩

/-- Claim C8 counterexample: the roster `["c2"]` over `dbC` is valid in the
claim's sense — the identifier resolves in the author database and its
affiliation label exists — yet the run dies with the `NameError` on
`state` (the address `"Inst B, Country B"` has only two comma components,
see claim C10) before any author block is emitted: zero blocks against a
roster length of 1, in a non-buffered and a buffered mode alike. -/
theorem counterexample_C8 :
    (List.lookup "c2" dbC.authors).isSome = true ∧
    (runLoop .aas false dbC ["c2"]).2 = some (RunError.nameError "state") ∧
    countAuthorLines (runLoop .aas false dbC ["c2"]).1.printed = 0 ∧
    (runLoop .adass false dbC ["c2"]).2 = some (RunError.nameError "state") ∧
    (runLoop .adass false dbC ["c2"]).1.authOutput.length = 0 ∧
    (["c2"] : List String).length = 1 := by
  refine ⟨by decide, by decide, by decide, by decide, by decide, by decide⟩

/-- Claim C5 (amended): in the `adass` buffered mode the affiliation block
is deduplicated: `allAffil` is exactly one formatted entry per distinct
referenced label, in first-encounter order with indices 1..n.  In the
`arxiv` buffered mode the block is NOT deduplicated: every roster entry
contributes exactly one entry (built from the institution of its author's
last affiliation), so shared labels repeat. -/
theorem claim_C5 (noafil : Bool) (db : AuthorDB) (roster : List String) :
    ((runLoop .adass noafil db roster).2 = none →
      (runLoop .adass noafil db roster).1.allAffil =
        affilEntries .adass db.affiliations
          (runLoop .adass noafil db roster).1.affilset ∧
      (runLoop .adass noafil db roster).1.affilset =
        firstOccur [] (encounters db roster)) ∧
    ((runLoop .arxiv noafil db roster).2 = none →
      (runLoop .arxiv noafil db roster).1.allAffil.length = roster.length) := by
  constructor
  · intro h
    rcases hr : runLoop .adass noafil db roster with ⟨fin, e⟩
    rw [hr] at h
    simp only at h
    subst h
    unfold runLoop at hr
    obtain ⟨_, i2, _, _, _, _, i7, _⟩ :=
      runLoopFrom_ok .adass noafil db roster.length roster 0 initialState fin hr
    refine ⟨i7 rfl ?_, by simpa [initialState] using i2⟩
    simp [initialState, affilEntries, affilEntriesFrom]
  · intro h
    rcases hr : runLoop .arxiv noafil db roster with ⟨fin, e⟩
    rw [hr] at h
    simp only at h
    subst h
    unfold runLoop at hr
    obtain ⟨_, _, _, _, _, _, _, i8⟩ :=
      runLoopFrom_ok .arxiv noafil db roster.length roster 0 initialState fin hr
    simpa [initialState] using i8 rfl

theorem claim_C5_witness :
    (runLoop .adass false dbA ["a1", "a2"]).1.allAffil =
      affilEntries .adass dbA.affiliations
        (runLoop .adass false dbA ["a1", "a2"]).1.affilset ∧
    (runLoop .arxiv false dbA ["a1", "a2"]).1.allAffil.length = 2 :=
  ⟨((claim_C5 false dbA ["a1", "a2"]).1 (by decide)).1,
   (claim_C5 false dbA ["a1", "a2"]).2 (by decide)⟩

/-- Claim C5 counterexample: in the buffered `arxiv` mode, a roster of two
authors sharing the single affiliation label `X` produces TWO identical
affiliation entries, not one entry per distinct label as the claim states
for every buffered mode. -/
theorem counterexample_C5 :
    (runLoop .arxiv false dbB ["b1", "b2"]).2 = none ∧
    firstOccur [] (encounters dbB ["b1", "b2"]) = ["X"] ∧
    (runLoop .arxiv false dbB ["b1", "b2"]).1.allAffil =
      ["(1) Inst X", "(1) Inst X"] := by
  refine ⟨by decide, by decide, by decide⟩

/-- Claim C2: a roster identifier absent from the author database makes the
loop stop with the `RuntimeError` naming that identifier (provided the
authors before it processed cleanly); in the buffered modes
(`buffer_authors`: `adass` and `arxiv`) nothing has been printed at that
point, so no partial author output is emitted. -/
theorem claim_C2 (m : Mode) (noafil : Bool) (db : AuthorDB)
    (pre : List String) (bad : String) (rest : List String)
    (hbad : List.lookup bad db.authors = none)
    (hpre : (runLoopFrom m noafil db (pre ++ bad :: rest).length 0 initialState pre).2 =
      none) :
    (runLoop m noafil db (pre ++ bad :: rest)).2 = some (.missingAuthor bad) ∧
    errorMessage (RunError.missingAuthor bad) =
      "Author ID " ++ bad ++ " not defined in author database." ∧
    (buffer_authors m = true →
      (runLoop m noafil db (pre ++ bad :: rest)).1.printed = []) := by
  unfold runLoop
  rw [runLoopFrom_append]
  rcases hr : runLoopFrom m noafil db (pre ++ bad :: rest).length 0 initialState pre
    with ⟨st1, e⟩
  rw [hr] at hpre
  simp only at hpre
  subst hpre
  have hb : ∀ (nn an : Nat), processAuthor m noafil db nn an st1 bad =
      (st1, some (.missingAuthor bad)) := by
    intro nn an
    simp [processAuthor, hbad]
  refine ⟨?_, rfl, ?_⟩
  · simp [runLoopFrom, hb]
  · intro hbuf
    obtain ⟨_, _, _, _, i5, _, _, _⟩ :=
      runLoopFrom_ok m noafil db (pre ++ bad :: rest).length pre 0 initialState st1 hr
    have hprint : st1.printed = initialState.printed := (i5 hbuf).2
    simp [runLoopFrom, hb, hprint, initialState]

theorem claim_C2_witness :
    (runLoop .adass false dbA (["a1"] ++ "zz" :: [])).2 =
      some (RunError.missingAuthor "zz") ∧
    (runLoop .adass false dbA (["a1"] ++ "zz" :: [])).1.printed = [] :=
  ⟨(claim_C2 .adass false dbA ["a1"] "zz" [] (by decide) (by decide)).1,
   (claim_C2 .adass false dbA ["a1"] "zz" [] (by decide) (by decide)).2.2 rfl⟩

/-- Claim C7: name normalization is idempotent: re-normalizing an already
normalized surname (whitespace replaced by `~`) or initials string
(additionally a `~` inserted between a dot and a following letter) returns
the same string. -/
theorem claim_C7 (s : String) :
    normSurname (normSurname s) = normSurname s ∧
    normInitials (normInitials s) = normInitials s := by
  constructor
  · simp only [normSurname]
    congr 1
    exact collapseWS_fixed _ (collapseWS_no_ws _)
  · simp only [normInitials]
    congr 1
    rw [dotSep_fixed _ (collapseWS_dwFree _ (dotSep_dwFree _))]
    exact collapseWS_fixed _ (collapseWS_no_ws _)

/-- Claim C3 (the code evaluated at the failing input): with exactly two
buffered author snippets the final join of lines 250-260 concatenates them
with NO separator at all — `numAuths = len(authOutput) - 1` is 1, so the
guard `numAuths > 1` of the and-branch fails and so does `anum < numAuths`
— while with three snippets the and-before-last convention does hold.  The
claimed `" and "` between the two snippets of a two-author roster never
appears. -/
theorem claim_C3 :
    joinAuthOutput .adass ["AuthA", "AuthB"] = "AuthAAuthB" ∧
    joinAuthOutput .arxiv ["AuthA", "AuthB"] = "AuthAAuthB" ∧
    "AuthAAuthB" ≠ "AuthA and AuthB" ∧
    joinAuthOutput .adass ["AuthA", "AuthB", "AuthC"] = "AuthA AuthB and AuthC" ∧
    joinAuthOutput .arxiv ["AuthA", "AuthB", "AuthC"] =
      "AuthA and AuthB and AuthC" := by
  refine ⟨by decide, by decide, by decide, by decide, by decide⟩

/-- Claim C9: a `--mode` value outside `OUTPUT_MODES` is rejected by the
option parser (line 45, `choices=OUTPUT_MODES`) before either document is
opened (lines 84 and 93): the trace holds no read event and the process
exits with the parser's status 2 (non-zero). -/
theorem claim_C9 (s : String) (h : s ∉ OUTPUT_MODES) :
    mainTrace s = ([.usageError], 2) ∧
    TraceEvent.readAuthorsFile ∉ (mainTrace s).1 ∧
    TraceEvent.readDBFile ∉ (mainTrace s).1 ∧
    (mainTrace s).2 ≠ 0 := by
  have hc : argparseChoice s = none := by simp [argparseChoice, h]
  refine ⟨by simp [mainTrace, hc], by simp [mainTrace, hc],
    by simp [mainTrace, hc], by simp [mainTrace, hc]⟩

theorem claim_C9_witness :
    mainTrace "verbose" = ([.usageError], 2) ∧ (mainTrace "verbose").2 ≠ 0 := by
  have h := claim_C9 "verbose" (by decide)
  exact ⟨h.1, h.2.2.2⟩

/-- Claim C6 counterexample: in the scenario `[a1 : [X], a2 : [X, Y]]` no
mode joins the two reference numbers of `a2` with a comma, and the normal
mode joins them with a single space rather than nothing: `adass` gives
`$^1$ $^2$`, `arxiv` gives `(1) (2)`, and the `aas`/`spie` template gives
`1 2` (the loop sets `affilSep = " "` after the first label in every
mode). -/
theorem counterexample_C6 :
    (runLoop .adass false dbA ["a1", "a2"]).1.authOutput.getD 1 "" =
      "C.~D.~Beta$^1$ $^2$" ∧
    (runLoop .arxiv false dbA ["a1", "a2"]).1.authOutput.getD 1 "" =
      "C.~D. Beta(1) (2)" ∧
    affilLoop .aas false dbA.affiliations ["X", "Y"]
      { affilset := ["X"], affilOutput := [], affilAuth := "", affilSep := "",
        refs := [] } =
      .ok { affilset := ["X", "Y"],
            affilOutput := ["\\affiliation[2]\x7bInst Y, City Y, SY 22, Country Y\x7d"],
            affilAuth := "1 2", affilSep := " ", refs := [("X", 1), ("Y", 2)] } ∧
    affilLoop .spie false dbA.affiliations ["X", "Y"]
      { affilset := ["X"], affilOutput := [], affilAuth := "", affilSep := "",
        refs := [] } =
      .ok { affilset := ["X", "Y"],
            affilOutput := ["\\affil[2]\x7bInst Y, City Y, SY 22, Country Y\x7d"],
            affilAuth := "1 2", affilSep := " ", refs := [("X", 1), ("Y", 2)] } ∧
    "C.~D.~Beta$^1$ $^2$" ≠ "C.~D.~Beta$^1$,$^2$" ∧
    "1 2" ≠ "1,2" ∧ "1 2" ≠ "12" := by
  refine ⟨by decide, by decide, by rfl, by rfl, by decide, by decide, by decide⟩

/-- Claim C6 (amended): the reference numbers of an author with several
affiliations appear in declared-list order; after the first label the
separator is always a single space in every mode (no mode uses a comma
between numbers; in `adass` a comma instead precedes the first reference of
every author except the last).  In the scenario `[a1 : [X], a2 : [X, Y]]`,
X is assigned 1, Y is assigned 2, and a2's reference shows both indices in
that order. -/
theorem claim_C6 :
    (∀ (m : Mode) (noafil : Bool) (affs : List (String × String))
       (labs : List String) (acc res : AffilAcc),
       affilLoop m noafil affs labs acc = .ok res →
       labs ≠ [] → res.affilSep = " ") ∧
    (runLoop .adass false dbA ["a1", "a2"]).1.affilRefs =
      [("X", 1), ("X", 1), ("Y", 2)] ∧
    (runLoop .adass false dbA ["a1", "a2"]).1.authOutput =
      ["A.~B.~Alpha,$^1$", "C.~D.~Beta$^1$ $^2$"] ∧
    (runLoop .aas false dbA ["a1", "a2"]).1.affilRefs =
      [("X", 1), ("X", 1), ("Y", 2)] := by
  refine ⟨?_, by decide, by decide, by decide⟩
  intro m noafil affs labs acc res h hne
  exact affilLoop_sep m noafil affs labs acc res h (Or.inr hne)

theorem claim_C6_witness :
    ({ affilset := ["X", "Y"],
       affilOutput := ["\\affiliation[2]\x7bInst Y, City Y, SY 22, Country Y\x7d"],
       affilAuth := "1 2", affilSep := " ",
       refs := [("X", 1), ("Y", 2)] } : AffilAcc).affilSep = " " :=
  claim_C6.1 .aas false dbA.affiliations ["X", "Y"]
    { affilset := ["X"], affilOutput := [], affilAuth := "", affilSep := "",
      refs := [] } _ (by rfl) (by decide)

/-- Claim C4 counterexample: for author `a2`, whose affiliation list is
`[X, Y]`, the accumulated `\paperauthor` record is parsed from the address
of `Y` — the LAST declared affiliation, the value left in the loop variable
`theAffil` — not from the first affiliation `X` as the claim states. -/
theorem counterexample_C4 :
    (runLoop .aas false dbA ["a1", "a2"]).1.pAuthorOutput.getD 1 "" =
      mkPaperauthor (normInitials authA2.initials) (normSurname authA2.name)
        "" "" "Inst Y" "City Y" "SY" "22" "Country Y" ∧
    (runLoop .aas false dbA ["a1", "a2"]).1.pAuthorOutput.getD 1 "" ≠
      mkPaperauthor (normInitials authA2.initials) (normSurname authA2.name)
        "" "" "Inst X" "City X" "SX" "11" "Country X" := by
  exact ⟨by decide, by decide⟩

/-- Claim C4 (amended): for every author processed successfully, in every
mode, exactly one `\paperauthor` record is appended, and it is parsed from
the address string of the author's LAST affiliation (the leftover loop
variable `theAffil`), not the first. -/
theorem claim_C4 (m : Mode) (noafil : Bool) (db : AuthorDB)
    (n anum : Nat) (st st2 : LoopState) (id : String) (auth : Author) (lab : String)
    (hlook : List.lookup id db.authors = some auth)
    (hlast : auth.affil.getLast? = some lab)
    (hrun : processAuthor m noafil db n anum st id = (st2, none)) :
    ∃ addrtext pa vars,
      List.lookup lab db.affiliations = some addrtext ∧
      paperIndexRecord
        { country := st.countryVar, stateV := st.stateVar, pcode := st.pcodeVar }
        (normInitials auth.initials) (normSurname auth.name)
        (auth.email.getD "") (auth.orcid.getD "") addrtext = .ok (pa, vars) ∧
      st2.pAuthorOutput = st.pAuthorOutput ++ [pa] := by
  obtain ⟨auth2, core, hlook2, hcore, _, _, hpa, _, _, _, _, _⟩ :=
    processAuthor_ok m noafil db n anum st id st2 hrun
  rw [hlook] at hlook2
  injection hlook2 with hauth
  subst hauth
  obtain ⟨acc, lab2, addrtext, pa, vars, _, hlab, haddr, hpr,
    _, _, _, _, _, _, hparec, _, _⟩ :=
    processAuthorCore_ok m noafil db n anum st auth core hcore
  rw [hlast] at hlab
  simp only at hlab
  injection hlab with hlab
  subst hlab
  refine ⟨addrtext, pa, vars, haddr, hpr, ?_⟩
  rw [hpa, hparec]

theorem claim_C4_witness :
    ∃ addrtext pa vars,
      List.lookup "Y" dbA.affiliations = some addrtext ∧
      paperIndexRecord { country := none, stateV := none, pcode := none }
        (normInitials authA2.initials) (normSurname authA2.name)
        (authA2.email.getD "") (authA2.orcid.getD "") addrtext = .ok (pa, vars) ∧
      (processAuthor .aas false dbA 2 0 initialState "a2").1.pAuthorOutput =
        initialState.pAuthorOutput ++ [pa] :=
  claim_C4 .aas false dbA 2 0 initialState
    (processAuthor .aas false dbA 2 0 initialState "a2").1
    "a2" authA2 "Y" (by decide) (by decide) (by decide)

lemma paperIndexRecord_short (vars : AddrVars) (i s e o addrtext : String)
    (hlen : (splitCommaStrip addrtext).length < 3)
    (hstate : vars.stateV = none) :
    paperIndexRecord vars i s e o addrtext = .error (.nameError "state") := by
  have hne := splitCommaStrip_ne_nil addrtext
  rcases h3 : splitCommaStrip addrtext with _ | ⟨a0, _ | ⟨a1, _ | ⟨a2, rest⟩⟩⟩
  · exact absurd h3 hne
  · simp only [paperIndexRecord, h3]
    simp [paperIndexFinish, hstate]
  · simp only [paperIndexRecord, h3]
    simp [paperIndexFinish, hstate]
  · rw [h3] at hlen
    simp only [List.length_cons] at hlen
    omega

lemma paperIndexRecord_two (vars : AddrVars) (i s e o addrtext : String)
    (sv pv : String)
    (hlen : (splitCommaStrip addrtext).length = 2)
    (hstate : vars.stateV = some sv) (hpcode : vars.pcode = some pv) :
    paperIndexRecord vars i s e o addrtext =
      .ok (mkPaperauthor i s e o ((splitCommaStrip addrtext).getD 0 "") ""
             sv pv ((splitCommaStrip addrtext).getD 1 ""),
           { country := some ((splitCommaStrip addrtext).getD 1 ""),
             stateV := some sv, pcode := some pv }) := by
  rcases h3 : splitCommaStrip addrtext with _ | ⟨a0, _ | ⟨a1, _ | ⟨a2, rest⟩⟩⟩
  · rw [h3] at hlen; simp at hlen
  · rw [h3] at hlen; simp at hlen
  · simp only [paperIndexRecord, h3]
    simp [paperIndexFinish, hstate, hpcode]
  · rw [h3] at hlen
    simp only [List.length_cons] at hlen
    omega

/-- Claim C10: `state` and `pcode` are assigned only when the parsed
address (of the author's last affiliation) has at least three
comma-separated components.  (a) When the FIRST roster author's address has
fewer components, the loop dies with the unhandled `NameError` on `state`.
(b) When a later author's address has two components while `state`/`pcode`
already hold values parsed for an earlier author, those stale values are
silently written into the later author's record, and survive in the
state. -/
theorem claim_C10 :
    (∀ (m : Mode) (noafil : Bool) (db : AuthorDB) (id : String)
       (rest : List String) (auth : Author) (lab addrtext : String),
       List.lookup id db.authors = some auth →
       (∀ l ∈ auth.affil, (List.lookup l db.affiliations).isSome = true) →
       auth.affil.getLast? = some lab →
       List.lookup lab db.affiliations = some addrtext →
       (splitCommaStrip addrtext).length < 3 →
       (runLoop m noafil db (id :: rest)).2 = some (.nameError "state")) ∧
    (∀ (m : Mode) (noafil : Bool) (db : AuthorDB) (n anum : Nat)
       (st st2 : LoopState) (id : String) (auth : Author)
       (lab addrtext sv pv : String),
       List.lookup id db.authors = some auth →
       auth.affil.getLast? = some lab →
       List.lookup lab db.affiliations = some addrtext →
       (splitCommaStrip addrtext).length = 2 →
       st.stateVar = some sv → st.pcodeVar = some pv →
       processAuthor m noafil db n anum st id = (st2, none) →
       st2.pAuthorOutput = st.pAuthorOutput ++
         [mkPaperauthor (normInitials auth.initials) (normSurname auth.name)
           (auth.email.getD "") (auth.orcid.getD "")
           ((splitCommaStrip addrtext).getD 0 "") "" sv pv
           ((splitCommaStrip addrtext).getD 1 "")] ∧
       st2.stateVar = some sv ∧ st2.pcodeVar = some pv) := by
  constructor
  · intro m noafil db id rest auth lab addrtext hlook hl hlast haddr hlen
    have hcoreErr : ∀ (nn an : Nat), processAuthorCore m noafil db nn an
        initialState auth = .error (.nameError "state") := by
      intro nn an
      simp only [processAuthorCore]
      split
      · rename_i e heq
        obtain ⟨res, hres⟩ := affilLoop_total m noafil db.affiliations auth.affil _ hl
        rw [hres] at heq
        cases heq
      · rename_i acc heq
        split
        · rename_i heq2
          rw [hlast] at heq2
          cases heq2
        · rename_i theAffil heq2
          rw [hlast] at heq2
          simp only at heq2
          injection heq2 with heq2
          subst heq2
          split
          · rename_i heq3
            rw [haddr] at heq3
            cases heq3
          · rename_i addrtext2 heq3
            rw [haddr] at heq3
            injection heq3 with heq3
            subst heq3
            split
            · rename_i e heq4
              rw [paperIndexRecord_short _ _ _ _ _ _ hlen rfl] at heq4
              injection heq4 with heq4
              rw [heq4]
            · rename_i pa vars heq4
              rw [paperIndexRecord_short _ _ _ _ _ _ hlen rfl] at heq4
              cases heq4
    have hpa : ∀ (nn an : Nat), processAuthor m noafil db nn an initialState id =
        (initialState, some (.nameError "state")) := by
      intro nn an
      simp [processAuthor, hlook, hcoreErr nn an]
    simp [runLoop, runLoopFrom, hpa]
  · intro m noafil db n anum st st2 id auth lab addrtext sv pv
      hlook hlast haddr hlen hsv hpv hrun
    obtain ⟨auth2, core, hlook2, hcore, _, _, hpa, hsv2, hpv2, _, _, _⟩ :=
      processAuthor_ok m noafil db n anum st id st2 hrun
    rw [hlook] at hlook2
    injection hlook2 with hauth
    subst hauth
    obtain ⟨acc, lab2, addrtext2, pa, vars, _, hlab, haddr2, hpr,
      _, _, _, _, _, _, hparec, hcvars, _⟩ :=
      processAuthorCore_ok m noafil db n anum st auth core hcore
    rw [hlast] at hlab
    simp only at hlab
    injection hlab with hlab
    subst hlab
    rw [haddr] at haddr2
    injection haddr2 with haddr2
    subst haddr2
    rw [paperIndexRecord_two _ _ _ _ _ _ sv pv hlen (by rw [hsv]) (by rw [hpv])] at hpr
    injection hpr with hpr
    rw [Prod.mk.injEq] at hpr
    obtain ⟨hpr1, hpr2⟩ := hpr
    refine ⟨?_, ?_, ?_⟩
    · rw [hpa, hparec, hpr1]
    · rw [hsv2, hcvars, ← hpr2]
    · rw [hpv2, hcvars, ← hpr2]

theorem claim_C10_witness :
    (runLoop .aas false dbC ["c2"]).2 = some (RunError.nameError "state") ∧
    (processAuthor .aas false dbC 2 1
      { affilset := ["Z3"], authOutput := [], allAffil := [],
        pAuthorOutput := [], indexOutput := [], printed := [],
        theAffilVar := some "Z3", countryVar := some "Country A",
        stateVar := some "SA", pcodeVar := some "9", affilRefs := [("Z3", 1)] }
      "c2").1.pAuthorOutput =
      [] ++
        [mkPaperauthor (normInitials "K.L.") (normSurname "Zeta") "" ""
          ((splitCommaStrip "Inst B, Country B").getD 0 "") "" "SA" "9"
          ((splitCommaStrip "Inst B, Country B").getD 1 "")] := by
  constructor
  · exact claim_C10.1 .aas false dbC "c2" [] ⟨"Zeta", "K.L.", none, none, ["Z2"], []⟩
      "Z2" "Inst B, Country B" (by decide) (by decide) (by decide) (by decide)
      (by decide)
  · exact (claim_C10.2 .aas false dbC 2 1
      { affilset := ["Z3"], authOutput := [], allAffil := [],
        pAuthorOutput := [], indexOutput := [], printed := [],
        theAffilVar := some "Z3", countryVar := some "Country A",
        stateVar := some "SA", pcodeVar := some "9", affilRefs := [("Z3", 1)] }
      (processAuthor .aas false dbC 2 1
        { affilset := ["Z3"], authOutput := [], allAffil := [],
          pAuthorOutput := [], indexOutput := [], printed := [],
          theAffilVar := some "Z3", countryVar := some "Country A",
          stateVar := some "SA", pcodeVar := some "9", affilRefs := [("Z3", 1)] }
        "c2").1
      "c2" ⟨"Zeta", "K.L.", none, none, ["Z2"], []⟩ "Z2" "Inst B, Country B"
      "SA" "9" (by decide) (by decide) (by decide) (by decide) (by decide)
      (by decide) (by rfl)).1

end DbToAuthors
